import Mathlib

/-!
Shallow embedding of the pl4m content-management layer
(`pl4m_utils/content_manager.py`, `pl4m_utils/metadata_manager.py`,
`pl4m_utils/config.py`) and proofs about its validation, path derivation,
soft-delete state machine, tag algebra, pagination, and error ordering.

Python dictionaries are embedded as association lists with
last-write-wins update; Python `datetime` values as abstract `Nat`
instants; Firestore documents as field dictionaries; a Firestore
collection as an association list from document id to document.
Every fallible operation returns an `Except` of an explicit error kind
mirroring the `ValueError` classes of the source, paired with the
resulting store state (unchanged when the operation fails before its
write, exactly as in the source). String scanning (lowercasing,
splitting on a separator) is implemented structurally over character
lists so that all definitions evaluate inside the kernel.
-/

set_option autoImplicit false

deriving instance DecidableEq for Except

namespace Pl4m

/-- Embedded Python values: the value shapes the managers inspect
(`None`, strings, integers, `datetime` instants, lists and sets —
the lists and sets the managers build or type-check carry strings). -/
inductive Value where
  | vNone : Value
  | vStr (s : String) : Value
  | vInt (n : Int) : Value
  | vDatetime (t : Nat) : Value
  | vList (l : List String) : Value
  | vSet (l : List String) : Value
deriving DecidableEq, Repr

/-- Python truthiness for the embedded values (`if x:`). -/
def Value.truthy : Value → Bool
  | .vNone => false
  | .vStr s => !(s == "")
  | .vInt n => !(n == 0)
  | .vDatetime _ => true
  | .vList l => !l.isEmpty
  | .vSet l => !l.isEmpty

/-- A Firestore document / Python dict: association list, unique keys by
construction of the update operation. -/
abbrev Doc := List (String × Value)

/-- A Firestore collection: document id → document. -/
abbrev Collection := List (String × Doc)

/-- Embeds `d[k] = v` for a Python dict embedded as an association list:
replace the binding in place if the key exists, append otherwise. -/
def setKey {α β : Type} [DecidableEq α] : List (α × β) → α → β → List (α × β)
  | [], k, v => [(k, v)]
  | (k1, v1) :: rest, k, v =>
      if k1 = k then (k, v) :: rest else (k1, v1) :: setKey rest k v

/-- Embeds `d.get(k, dflt)`. -/
def docGetD (d : Doc) (k : String) (dflt : Value) : Value :=
  (d.lookup k).getD dflt

/-- Embeds `d.update(updates)`: apply each binding left to right. -/
def applyUpdates (d : Doc) (updates : List (String × Value)) : Doc :=
  updates.foldl (fun acc kv => setKey acc kv.1 kv.2) d

/-- Split a character list at a separator character; always returns at
least one (possibly empty) segment, like Python `str.split(sep)`. -/
def splitOnChar (sep : Char) : List Char → List (List Char)
  | [] => [[]]
  | c :: cs =>
      match splitOnChar sep cs with
      | [] => [[]]
      | seg :: rest =>
          if c = sep then [] :: seg :: rest else (c :: seg) :: rest

/-- Embeds `s.lower()` (character-wise). -/
def lowerStr (s : String) : String :=
  String.mk (s.toList.map Char.toLower)

/-- Embeds `sep in s`; the split helpers likewise operate on `s.toList`. -/
def containsChar (s : String) (c : Char) : Bool :=
  s.toList.contains c

/-- Static configuration of one content kind (`config.py CONTENT_TYPES`).
`mime_types` is `none` when the kind's config dict has no such key. -/
structure ContentTypeConfig where
  valid_extensions : List String
  required_metadata : List String
  optional_metadata : List String
  default_content_type : Option String
  mime_types : Option (List (String × String))
  collection : String
deriving DecidableEq, Repr

/-- Config `CONTENT_TYPES["documents"]`. -/
def documentsConfig : ContentTypeConfig :=
  { valid_extensions := [".pdf"]
    required_metadata := ["title", "description", "tags"]
    optional_metadata := ["author", "page_count", "created_date"]
    default_content_type := some "application/pdf"
    mime_types := none
    collection := "tylers-platform-documents" }

/-- Config `CONTENT_TYPES["images"]`. -/
def imagesConfig : ContentTypeConfig :=
  { valid_extensions := [".jpg", ".jpeg", ".png", ".gif", ".webp"]
    required_metadata := ["tags"]
    optional_metadata := ["description", "taken_at", "created_date"]
    default_content_type := none
    mime_types := some [("jpg", "image/jpeg"), ("jpeg", "image/jpeg"),
      ("png", "image/png"), ("gif", "image/gif"), ("webp", "image/webp")]
    collection := "tylers-platform-images" }

/-- Config `CONTENT_TYPES["blog"]`. -/
def blogConfig : ContentTypeConfig :=
  { valid_extensions := [".md", ".markdown"]
    required_metadata := ["title", "description", "tags", "last_modified"]
    optional_metadata := ["author", "created_date"]
    default_content_type := some "text/markdown"
    mime_types := none
    collection := "tylers-platform-blog" }

/-- The registry `CONTENT_TYPES`. -/
def CONTENT_TYPES : List (String × ContentTypeConfig) :=
  [("documents", documentsConfig), ("images", imagesConfig), ("blog", blogConfig)]

/-- Error kinds of `MetadataManager` (the distinct `ValueError` classes
its methods raise before being wrapped into `MetadataManagerError`). -/
inductive MMErr where
  | missingParams : MMErr
  | notFound (id : String) : MMErr
  | alreadyDeleted (id : String) : MMErr
  | notDeleted (id : String) : MMErr
deriving DecidableEq, Repr

/-- Validation error classes of `ContentManager._validate_metadata`
(each a `ValueError` in the source; the class, not the message, is
modelled — Python set iteration makes the message's field order
nondeterministic). -/
inductive ValErr where
  | notADict : ValErr
  | missingRequired : ValErr
  | unknownFields : ValErr
  | badType (field : String) : ValErr
deriving DecidableEq, Repr

/-- Error kinds of `ContentManager` operations. -/
inductive CMErr where
  | invalidExtension (ext : String) : CMErr
  | validation (e : ValErr) : CMErr
  | invalidFilename : CMErr
  | contentNotFound (id : String) : CMErr
  | invalidOperation (op : String) : CMErr
  | protectedField : CMErr
  | blobWriteFailed : CMErr
  | badRecord : CMErr
  | mm (e : MMErr) : CMErr
deriving DecidableEq, Repr

/-- Computes `filename.lower().split('.')[-1]`: the last dot-separated segment of
the lowercased filename. -/
def extTail (filename : String) : String :=
  String.mk ((splitOnChar '.' (lowerStr filename).toList).getLastD [])

/-- Embeds `ContentManager._validate_extension`. -/
def validate_extension (cfg : ContentTypeConfig) (filename : String) :
    Except CMErr Unit :=
  let ext := "." ++ extTail filename
  if cfg.valid_extensions.contains ext then .ok ()
  else .error (.invalidExtension ext)

/-- The metadata argument of `_validate_metadata`: a dict, or any other
Python value (rejected by the `isinstance(metadata, dict)` shape check). -/
inductive MetaArg where
  | dict (m : Doc) : MetaArg
  | nonDict (v : Value) : MetaArg
deriving DecidableEq, Repr

/-- The set `required_metadata` minus the dynamically computed `last_modified`
(`{field for field in self.required_metadata if field != 'last_modified'}`). -/
def requiredFieldsOf (cfg : ContentTypeConfig) : List String :=
  cfg.required_metadata.filter (· ≠ "last_modified")

/-- The fields of `type_validations`, in dict insertion order. -/
def typeCheckedFields : List String :=
  ["tags", "taken_at", "publish_date", "created_date"]

/-- Expected type of a type-checked field: `tags` must be a list or set,
the three date fields must be `datetime` values. -/
def expectedType (field : String) (v : Value) : Bool :=
  if field = "tags" then
    match v with
    | .vList _ => true
    | .vSet _ => true
    | _ => false
  else
    match v with
    | .vDatetime _ => true
    | _ => false

/-- The per-field type-check loop of `_validate_metadata`. -/
def typeCheck (m : Doc) : List String → Except ValErr Unit
  | [] => .ok ()
  | f :: fs =>
      match m.lookup f with
      | some v => if expectedType f v then typeCheck m fs else .error (.badType f)
      | none => typeCheck m fs

/-- Embeds `ContentManager._validate_metadata`. -/
def validate_metadata (cfg : ContentTypeConfig) (metadata : MetaArg) :
    Except ValErr Unit :=
  match metadata with
  | .nonDict _ => .error .notADict
  | .dict m =>
      let required_fields := requiredFieldsOf cfg
      if required_fields.any (fun f => (m.lookup f).isNone) then
        .error .missingRequired
      else if (m.map Prod.fst).any
          (fun k => !(required_fields.contains k || cfg.optional_metadata.contains k)) then
        .error .unknownFields
      else
        typeCheck m typeCheckedFields

/-- A calendar date, standing in for the `datetime` passed to
`_generate_file_path` (Python `datetime` years lie in 1..9999). -/
structure Date where
  year : Nat
  month : Nat
  day : Nat
deriving DecidableEq, Repr

/-- Zero-pad a number to a minimum width, as Python's `:04d` / `:02d`. -/
def padNum (w n : Nat) : String :=
  let s := toString n
  String.mk (List.replicate (w - s.length) '0') ++ s

/-- Embeds `ContentManager._generate_file_path` (with the date explicit). -/
def generate_file_path (content_type : String) (filename : String) (d : Date) :
    Except CMErr String :=
  if filename = "" ∨ containsChar filename '/' then .error .invalidFilename
  else .ok (padNum 4 d.year ++ "/" ++ padNum 2 d.month ++ "/" ++ padNum 2 d.day
    ++ "/" ++ content_type ++ "/" ++ filename)

/-- Embeds `config.get_mime_type` for an already-resolved kind config. -/
def get_mime_type (cfg : ContentTypeConfig) (filename : String) : String :=
  let dflt := cfg.default_content_type.getD "application/octet-stream"
  match cfg.mime_types with
  | some table => (table.lookup (extTail filename)).getD dflt
  | none => dflt

/-! ## MetadataManager (Firestore store adapter)

Each operation takes the collection name (used only for the source's
empty-parameter checks), the collection state, and an explicit `now`
standing for `datetime.utcnow()` / `firestore.SERVER_TIMESTAMP`.
Operations that can write return the resulting collection alongside the
`Except`; on an error path the returned collection is the input
unchanged, because in the source the raise happens before the write. -/

/-- Embeds `MetadataManager.read_document`. -/
def read_document (coll : String) (c : Collection) (id : String)
    (include_deleted : Bool) : Except MMErr (Option Doc) :=
  if coll = "" ∨ id = "" then .error .missingParams
  else
    match c.lookup id with
    | none => .ok none
    | some d =>
        if !include_deleted && (docGetD d "deleted_at" .vNone).truthy then .ok none
        else .ok (some d)

/-- Embeds `MetadataManager.create_document` (the fresh Firestore id is passed
in as `newId`; `customCreated` models `custom_timestamps['created_at']`). -/
def create_document (coll : String) (c : Collection) (data : Doc)
    (customCreated : Option Nat) (newId : String) (now : Nat) :
    Except MMErr Doc × Collection :=
  if coll = "" then (.error .missingParams, c)
  else
    let timestamp_data : List (String × Value) :=
      [("id", .vStr newId),
       ("created_at", .vDatetime (customCreated.getD now)),
       ("updated_at", .vDatetime now),
       ("deleted_at", .vNone)]
    let doc_data := applyUpdates data timestamp_data
    (.ok doc_data, setKey c newId doc_data)

/-- Embeds `MetadataManager.update_document`. -/
def update_document (coll : String) (c : Collection) (id : String)
    (updates : List (String × Value)) (now : Nat) :
    Except MMErr (Option Doc) × Collection :=
  if coll = "" ∨ id = "" ∨ updates.isEmpty then (.error .missingParams, c)
  else
    match c.lookup id with
    | none => (.error (.notFound id), c)
    | some d =>
        if (docGetD d "deleted_at" .vNone).truthy then
          (.error (.alreadyDeleted id), c)
        else
          let d1 := applyUpdates d (updates ++ [("updated_at", .vDatetime now)])
          let c1 := setKey c id d1
          (read_document coll c1 id false, c1)

/-- Embeds `MetadataManager.soft_delete`. -/
def soft_delete (c : Collection) (id : String) (now : Nat) :
    Except MMErr Bool × Collection :=
  match c.lookup id with
  | none => (.error (.notFound id), c)
  | some d =>
      if (docGetD d "deleted_at" .vNone).truthy then
        (.error (.alreadyDeleted id), c)
      else
        let d1 := applyUpdates d
          [("deleted_at", .vDatetime now), ("updated_at", .vDatetime now)]
        (.ok true, setKey c id d1)

/-- Embeds `MetadataManager.restore_document`. -/
def restore_document (c : Collection) (id : String) (now : Nat) :
    Except MMErr Bool × Collection :=
  match c.lookup id with
  | none => (.error (.notFound id), c)
  | some d =>
      if !(docGetD d "deleted_at" .vNone).truthy then
        (.error (.notDeleted id), c)
      else
        let d1 := applyUpdates d
          [("deleted_at", .vNone), ("updated_at", .vDatetime now)]
        (.ok true, setKey c id d1)

/-! ## Sorting helpers

Python's `sorted` over strings (code-point lexicographic) and the
document ordering applied by the backing store's `order_by` query. -/

/-- Lexicographic strict order on character lists (Python string `<`). -/
def charListLt : List Char → List Char → Bool
  | [], [] => false
  | [], _ :: _ => true
  | _ :: _, [] => false
  | a :: as, b :: bs => if a = b then charListLt as bs else decide (a < b)

/-- Python string `<`. -/
def strLt (a b : String) : Bool := charListLt a.toList b.toList

/-- Python string `<=`. -/
def strLe (a b : String) : Bool := strLt a b || a == b

/-- Insert into a list just before the first element not `le`-below `x`. -/
def insertLe {α : Type} (le : α → α → Bool) (x : α) : List α → List α
  | [] => [x]
  | y :: ys => if le x y then x :: y :: ys else y :: insertLe le x ys

/-- Insertion sort by a Boolean comparison. -/
def sortLe {α : Type} (le : α → α → Bool) (l : List α) : List α :=
  l.foldr (insertLe le) []

/-- Python `set(...)` as a duplicate-free list (membership-preserving). -/
def dedupStr : List String → List String
  | [] => []
  | x :: xs => if xs.contains x then dedupStr xs else x :: dedupStr xs

/-- The (propositional) string order used by Python `sorted`. -/
def tagLe (a b : String) : Prop := strLe a b = true

instance : DecidableRel tagLe :=
  fun a b => inferInstanceAs (Decidable (strLe a b = true))

/-- Computes `sorted(list(s))` for an embedded string set: code-point
lexicographic ascending order, duplicates removed. -/
def sortedTagList (l : List String) : List String :=
  List.insertionSort tagLe (dedupStr l)

/-- Rank used to compare document field values of different shapes
(the backing store brackets values by type before comparing). -/
def valRank : Value → Nat
  | .vNone => 0
  | .vDatetime _ => 1
  | .vInt _ => 2
  | .vStr _ => 3
  | .vList _ => 4
  | .vSet _ => 5

/-- Total Boolean comparison on embedded values, used for `order_by`. -/
def valLe (a b : Value) : Bool :=
  match a, b with
  | .vDatetime x, .vDatetime y => decide (x ≤ y)
  | .vInt x, .vInt y => decide (x ≤ y)
  | .vStr x, .vStr y => strLe x y
  | _, _ => decide (valRank a ≤ valRank b)

/-- Document comparison by the `order_by` field, honouring direction. -/
def docLe (order_by : String) (descending : Bool) (a b : Doc) : Bool :=
  if descending then valLe (docGetD b order_by .vNone) (docGetD a order_by .vNone)
  else valLe (docGetD a order_by .vNone) (docGetD b order_by .vNone)

/-! ## Listing (`MetadataManager.list_documents`) -/

/-- One `FieldFilter` triple. -/
structure DocFilter where
  field : String
  op : String
  value : Value
deriving DecidableEq, Repr

/-- Evaluate one Firestore comparison operator. -/
def evalFilterOp (op : String) (docVal target : Value) : Bool :=
  if op = "==" then docVal == target
  else if op = "!=" then !(docVal == target)
  else if op = "<" then valLe docVal target && !(docVal == target)
  else if op = "<=" then valLe docVal target
  else if op = ">" then valLe target docVal && !(docVal == target)
  else if op = ">=" then valLe target docVal
  else if op = "array_contains" then
    match docVal, target with
    | .vList l, .vStr s => l.contains s
    | _, _ => false
  else if op = "array_contains_any" then
    match docVal, target with
    | .vList l, .vList ts => ts.any l.contains
    | _, _ => false
  else false

/-- A document matches a filter when it has the field and the operator
holds (the store never matches documents missing the filtered field). -/
def matchesFilter (f : DocFilter) (d : Doc) : Bool :=
  match d.lookup f.field with
  | some v => evalFilterOp f.op v f.value
  | none => false

/-- The entire filtered, sorted result set that `list_documents` streams
before slicing: default tombstone exclusion, then the filter
conjunction, then the `order_by` sort. -/
def filteredSorted (c : Collection) (include_deleted : Bool)
    (filters : List DocFilter) (order_by : String) (descending : Bool) :
    List Doc :=
  let docs := c.map Prod.snd
  let docs := if include_deleted then docs
    else docs.filter (fun d => d.lookup "deleted_at" == some Value.vNone)
  let docs := filters.foldl (fun acc f => acc.filter (matchesFilter f)) docs
  sortLe (docLe order_by descending) docs

/-- Result shape of `list_documents` (pagination keys are `none` exactly
when the source's result dict omits them). -/
structure ListResult where
  items : List Doc
  total : Nat
  page : Option Nat
  per_page : Option Nat
  pages : Option Nat
deriving DecidableEq, Repr

/-- Embeds `MetadataManager.list_documents`. -/
def list_documents (c : Collection) (include_deleted : Bool)
    (limit : Option Nat) (order_by : String) (descending : Bool)
    (filters : List DocFilter) (page per_page : Option Nat) : ListResult :=
  let all_docs := filteredSorted c include_deleted filters order_by descending
  let total_items := all_docs.length
  match page, per_page with
  | some p, some pp =>
      let start_idx := (p - 1) * pp
      let items := (all_docs.drop start_idx).take pp
      { items := items, total := total_items, page := some p,
        per_page := some pp, pages := some ((total_items + pp - 1) / pp) }
  | _, _ =>
      let final := match limit with
        | some l => if l = 0 then all_docs else all_docs.take l
        | none => all_docs
      { items := final, total := total_items, page := none,
        per_page := none, pages := none }

/-! ## ContentManager -/

/-- Blob store: `(bucket, blob path) → (bytes, content type)`. -/
abbrev BlobStore := List ((String × String) × (List Nat × String))

/-- Combined state the content manager acts on. -/
structure CMState where
  blobs : BlobStore
  meta : Collection
deriving DecidableEq, Repr

/-- Fields `ContentManager.update_metadata` refuses to touch: the protected-field gate precedes the
kind's dynamic `last_modified`, then the store update. -/
def protected_fields : List String :=
  ["gcs_path", "bucket", "blob_path", "id", "created_at", "content_type"]

/-- Embeds `ContentManager.update_metadata`. -/
def update_metadata (cfg : ContentTypeConfig) (c : Collection) (id : String)
    (updates : List (String × Value)) (now : Nat) :
    Except CMErr (Option Doc) × Collection :=
  if updates.any (fun kv => protected_fields.contains kv.1) then
    (.error .protectedField, c)
  else
    let update_data := if cfg.required_metadata.contains "last_modified"
      then applyUpdates updates [("last_modified", .vDatetime now)]
      else updates
    match update_document cfg.collection c id update_data now with
    | (.error e, c1) => (.error (.mm e), c1)
    | (.ok od, c1) => (.ok od, c1)

/-- Embeds `ContentManager.upload_new_content`. `blobWriteOk` models the fate
of the remote blob write (`blob.upload_from_string`); `newId` the fresh
Firestore id. -/
def upload_new_content (cfg : ContentTypeConfig) (bucket : String)
    (content_type_name : String) (st : CMState) (filename : String)
    (content : List Nat) (metadata : MetaArg) (date : Date)
    (creation_date : Option Nat) (now : Nat) (newId : String)
    (blobWriteOk : Bool) : Except CMErr Doc × CMState :=
  match validate_extension cfg filename with
  | .error e => (.error e, st)
  | .ok () =>
    match metadata, validate_metadata cfg metadata with
    | _, .error ve => (.error (.validation ve), st)
    | .nonDict _, .ok () => (.error .badRecord, st)
    | .dict m, .ok () =>
      match generate_file_path content_type_name filename date with
      | .error e => (.error e, st)
      | .ok file_path =>
        let ctype := get_mime_type cfg filename
        if !blobWriteOk then (.error .blobWriteFailed, st)
        else
          let st1 := { st with
            blobs := setKey st.blobs (bucket, file_path) (content, ctype) }
          let content_data := applyUpdates m
            [("gcs_path", .vStr ("gs://" ++ bucket ++ "/" ++ file_path)),
             ("bucket", .vStr bucket),
             ("blob_path", .vStr file_path),
             ("size_bytes", .vInt content.length),
             ("content_type", .vStr ctype)]
          let content_data := if cfg.required_metadata.contains "last_modified"
            then applyUpdates content_data [("last_modified", .vDatetime now)]
            else content_data
          match create_document cfg.collection st1.meta content_data
              creation_date newId now with
          | (.error e, c1) => (.error (.mm e), { st1 with meta := c1 })
          | (.ok doc, c1) => (.ok doc, { st1 with meta := c1 })

/-- Embeds `ContentManager.update_content` (spec name `replaceContent`). -/
def update_content (cfg : ContentTypeConfig) (st : CMState) (id : String)
    (new_content : List Nat) (now : Nat) :
    Except CMErr (Option Doc) × CMState :=
  match read_document cfg.collection st.meta id false with
  | .error e => (.error (.mm e), st)
  | .ok none => (.error (.contentNotFound id), st)
  | .ok (some content) =>
      let ctv := docGetD content "content_type" .vNone
      let ctypeE : Except CMErr String :=
        if ctv.truthy then
          match ctv with
          | .vStr s => .ok s
          | _ => .error .badRecord
        else
          match docGetD content "blob_path" .vNone with
          | .vStr p => .ok (get_mime_type cfg
              (String.mk ((splitOnChar '/' p.toList).getLastD [])))
          | _ => .error .badRecord
      match ctypeE with
      | .error e => (.error e, st)
      | .ok ctype =>
          match docGetD content "bucket" .vNone,
              docGetD content "blob_path" .vNone with
          | .vStr bkt, .vStr bp =>
              let st1 := { st with
                blobs := setKey st.blobs (bkt, bp) (new_content, ctype) }
              let updates := [("size_bytes", Value.vInt new_content.length)]
              let updates := if cfg.required_metadata.contains "last_modified"
                then updates ++ [("last_modified", Value.vDatetime now)]
                else updates
              match update_document cfg.collection st1.meta id updates now with
              | (.error e, c1) => (.error (.mm e), { st1 with meta := c1 })
              | (.ok od, c1) => (.ok od, { st1 with meta := c1 })
          | _, _ => (.error .badRecord, st)

/-- Reads `content.get('tags', [])` as a Python set's backing iterable:
defined for the list and set shapes, nothing otherwise. -/
def tagIterable : Value → Option (List String)
  | .vList l => some l
  | .vSet l => some l
  | _ => none

/-- Embeds `ContentManager.update_content_tags`. -/
def update_content_tags (cfg : ContentTypeConfig) (c : Collection)
    (id : String) (tags : List String) (operation : String) (now : Nat) :
    Except CMErr (Option Doc) × Collection :=
  match read_document cfg.collection c id false with
  | .error e => (.error (.mm e), c)
  | .ok none => (.error (.contentNotFound id), c)
  | .ok (some content) =>
      match tagIterable (docGetD content "tags" (.vList [])) with
      | none => (.error .badRecord, c)
      | some current_tags =>
          let newTagsE : Except CMErr (List String) :=
            if operation = "set" then .ok tags
            else if operation = "add" then .ok (current_tags ++ tags)
            else if operation = "remove" then
              .ok (current_tags.filter (fun t => !tags.contains t))
            else .error (.invalidOperation operation)
          match newTagsE with
          | .error e => (.error e, c)
          | .ok new_tags =>
              update_metadata cfg c id
                [("tags", .vList (sortedTagList new_tags))] now

/-! ## Validator condition predicates (the three checks of
`_validate_metadata`, named for the ordering theorem) -/

/-- The missing-required condition of `_validate_metadata`. -/
def hasMissingRequired (cfg : ContentTypeConfig) (m : Doc) : Bool :=
  (requiredFieldsOf cfg).any (fun f => (m.lookup f).isNone)

/-- The unknown-field condition of `_validate_metadata`. -/
def hasUnknownField (cfg : ContentTypeConfig) (m : Doc) : Bool :=
  (m.map Prod.fst).any (fun k =>
    !((requiredFieldsOf cfg).contains k || cfg.optional_metadata.contains k))

/-- Field `f` is present in `m` with the wrong type. -/
def typeViolation (m : Doc) (f : String) : Bool :=
  match m.lookup f with
  | some v => !expectedType f v
  | none => false

/-- Some type-checked field of `m` has the wrong type. -/
def hasTypeViolation (m : Doc) : Bool :=
  typeCheckedFields.any (typeViolation m)

/-! ## Concrete stores used by witnesses and counterexamples -/

/-- A soft-deleted blog record, with its blob present. -/
def deletedDoc : Doc :=
  [("id", .vStr "doc1"), ("bucket", .vStr "b"),
   ("blob_path", .vStr "2024/01/01/blog/x.md"),
   ("content_type", .vStr "text/markdown"), ("deleted_at", .vDatetime 10),
   ("created_at", .vDatetime 1), ("updated_at", .vDatetime 10)]

/-- State holding only the soft-deleted record and its blob. -/
def stDeleted : CMState :=
  { blobs := [(("b", "2024/01/01/blog/x.md"), ([7, 7], "text/markdown"))]
    meta := [("doc1", deletedDoc)] }

/-- A live (never-deleted) record and its one-document collection. -/
def liveDoc : Doc :=
  [("id", .vStr "a"), ("deleted_at", .vNone), ("created_at", .vDatetime 1),
   ("updated_at", .vDatetime 1)]

/-- Collection with the single live record `a`. -/
def cLive : Collection := [("a", liveDoc)]

/-- A live record with tags ["x"]. -/
def taggedDoc : Doc :=
  [("id", .vStr "d1"), ("deleted_at", .vNone), ("tags", .vList ["x"]),
   ("created_at", .vDatetime 1), ("updated_at", .vDatetime 1)]

/-- Collection with the single tagged record `d1`. -/
def cTagged : Collection := [("d1", taggedDoc)]

/-- The `i`-th sample listing document (live, `created_at = i`). -/
def sampleDoc (i : Nat) : Doc :=
  [("id", .vStr (toString i)), ("created_at", .vDatetime i),
   ("deleted_at", .vNone)]

/-- Twelve live sample documents with ascending `created_at`. -/
def sampleCollection : Collection :=
  (List.range 12).map (fun i => (toString i, sampleDoc i))

example : validate_extension documentsConfig "A.PDF" = .ok () := by decide
example : validate_extension documentsConfig "pdf" = .ok () := by decide
example : validate_extension documentsConfig "a.txt" =
    .error (.invalidExtension ".txt") := by decide
example : generate_file_path "images" "a.jpg" ⟨2024, 3, 5⟩ =
    .ok "2024/03/05/images/a.jpg" := by decide
example : validate_metadata blogConfig (.dict [("title", .vStr "t"),
    ("description", .vStr "d"), ("tags", .vList []),
    ("last_modified", .vDatetime 0)]) = .error .unknownFields := by decide
example : get_mime_type imagesConfig "x.PNG" = "image/png" := by decide
example : sortedTagList ["y", "x", "y"] = ["x", "y"] := by decide

/-! ## Helper lemmas -/

theorem charListLt_trans {as : List Char} : ∀ {bs cs : List Char},
    charListLt as bs = true → charListLt bs cs = true →
    charListLt as cs = true := by
  induction as with
  | nil =>
      intro bs cs h1 h2
      cases bs with
      | nil => exact absurd h1 (by simp [charListLt])
      | cons b bs1 =>
          cases cs with
          | nil => exact absurd h2 (by simp [charListLt])
          | cons c cs1 => simp [charListLt]
  | cons a as1 ih =>
      intro bs cs h1 h2
      cases bs with
      | nil => exact absurd h1 (by simp [charListLt])
      | cons b bs1 =>
          cases cs with
          | nil => exact absurd h2 (by simp [charListLt])
          | cons c cs1 =>
              simp only [charListLt] at h1 h2 ⊢
              by_cases hab : a = b
              · subst hab
                rw [if_pos rfl] at h1
                by_cases hbc : a = c
                · subst hbc
                  rw [if_pos rfl] at h2
                  rw [if_pos rfl]
                  exact ih h1 h2
                · rw [if_neg hbc] at h2
                  rw [if_neg hbc]
                  exact h2
              · rw [if_neg hab] at h1
                by_cases hbc : b = c
                · subst hbc
                  rw [if_neg hab]
                  exact h1
                · rw [if_neg hbc] at h2
                  have hac : a < c :=
                    lt_trans (of_decide_eq_true h1) (of_decide_eq_true h2)
                  rw [if_neg (ne_of_lt hac)]
                  exact decide_eq_true hac

theorem charListLt_total {as : List Char} : ∀ {bs : List Char},
    charListLt as bs = false → as ≠ bs → charListLt bs as = true := by
  induction as with
  | nil =>
      intro bs h1 h2
      cases bs with
      | nil => exact absurd rfl h2
      | cons b bs1 => exact absurd h1 (by simp [charListLt])
  | cons a as1 ih =>
      intro bs h1 h2
      cases bs with
      | nil => simp [charListLt]
      | cons b bs1 =>
          simp only [charListLt] at h1 ⊢
          by_cases hab : a = b
          · subst hab
            rw [if_pos rfl] at h1
            rw [if_pos rfl]
            exact ih h1 (fun he => h2 (by rw [he]))
          · rw [if_neg hab] at h1
            rw [if_neg (fun he => hab he.symm)]
            have hnab : ¬ a < b := of_decide_eq_false h1
            have hba : b < a :=
              lt_of_le_of_ne (le_of_not_lt hnab) (fun he => hab he.symm)
            exact decide_eq_true hba

theorem tagLe_total (a b : String) : tagLe a b ∨ tagLe b a := by
  by_cases hab : a = b
  · subst hab
    left
    simp [tagLe, strLe]
  · cases hv : strLt a b with
    | true => exact Or.inl (by simp [tagLe, strLe, hv])
    | false =>
        right
        have hne : a.toList ≠ b.toList := fun he => hab (String.toList_inj.mp he)
        have h2 := @charListLt_total a.toList b.toList
          (by simpa [strLt] using hv) hne
        simp only [tagLe, strLe, strLt, Bool.or_eq_true]
        exact Or.inl h2

theorem tagLe_trans {a b c : String} (h1 : tagLe a b) (h2 : tagLe b c) :
    tagLe a c := by
  simp only [tagLe, strLe, strLt, Bool.or_eq_true, beq_iff_eq] at h1 h2 ⊢
  rcases h1 with h1 | rfl
  · rcases h2 with h2 | rfl
    · exact Or.inl (charListLt_trans h1 h2)
    · exact Or.inl h1
  · exact h2

instance : IsTotal String tagLe := ⟨tagLe_total⟩

instance : IsTrans String tagLe := ⟨fun _ _ _ => tagLe_trans⟩

theorem contains_iff_mem {x : String} {l : List String} :
    l.contains x = true ↔ x ∈ l := by
  simp [List.contains_iff_exists_mem_beq, beq_iff_eq]

theorem mem_dedupStr {x : String} : ∀ {l : List String},
    x ∈ dedupStr l ↔ x ∈ l := by
  intro l
  induction l with
  | nil => simp [dedupStr]
  | cons y ys ih =>
      by_cases h : ys.contains y = true
      · have hy : y ∈ ys := contains_iff_mem.mp h
        rw [dedupStr, if_pos h, ih, List.mem_cons]
        constructor
        · exact fun hx => Or.inr hx
        · intro hx
          rcases hx with rfl | hx
          · exact hy
          · exact hx
      · rw [dedupStr, if_neg h, List.mem_cons, List.mem_cons, ih]

theorem nodup_dedupStr : ∀ l : List String, (dedupStr l).Nodup := by
  intro l
  induction l with
  | nil => simp [dedupStr]
  | cons y ys ih =>
      by_cases h : ys.contains y = true
      · rw [dedupStr, if_pos h]
        exact ih
      · have hy : y ∉ ys := fun hm => h (contains_iff_mem.mpr hm)
        rw [dedupStr, if_neg h]
        exact List.nodup_cons.mpr ⟨fun hm => hy (mem_dedupStr.mp hm), ih⟩

theorem lookup_setKey_self {β : Type} (l : List (String × β)) (k : String)
    (v : β) : (setKey l k v).lookup k = some v := by
  induction l with
  | nil => simp [setKey]
  | cons p t ih =>
      obtain ⟨k1, v1⟩ := p
      by_cases h : k1 = k
      · subst h
        simp [setKey]
      · have hb : (k == k1) = false := beq_eq_false_iff_ne.mpr (Ne.symm h)
        rw [setKey, if_neg h, List.lookup_cons]
        simp [hb, ih]

theorem typeCheck_ne_unknown (m : Doc) : ∀ fs : List String,
    typeCheck m fs ≠ .error .unknownFields := by
  intro fs
  induction fs with
  | nil => simp [typeCheck]
  | cons f fs ih =>
      simp only [typeCheck]
      cases m.lookup f with
      | none => exact ih
      | some v =>
          cases h : expectedType f v with
          | true => simpa [h] using ih
          | false => simp [h]

theorem lookup_setKey_ne {β : Type} (l : List (String × β)) (k k1 : String)
    (v : β) (h : k ≠ k1) : (setKey l k1 v).lookup k = l.lookup k := by
  have hb : (k == k1) = false := beq_eq_false_iff_ne.mpr h
  induction l with
  | nil => simp [setKey, List.lookup_cons, hb]
  | cons p t ih =>
      obtain ⟨k2, v2⟩ := p
      by_cases h2 : k2 = k1
      · subst h2
        rw [setKey, if_pos rfl, List.lookup_cons, List.lookup_cons]
        simp [hb]
      · rw [setKey, if_neg h2, List.lookup_cons, List.lookup_cons]
        by_cases h3 : k == k2
        · simp [h3]
        · simp only [h3]
          exact ih
example : soft_delete [("a", [("deleted_at", .vNone)])] "a" 7 =
    (.ok true, [("a", [("deleted_at", .vDatetime 7), ("updated_at", .vDatetime 7)])]) := by
  decide


/-! ## Claims -/

/-- C6: `derivePath` fails with `InvalidFilename` exactly when the
filename is empty or contains a path separator; otherwise it returns the
key `YEAR/MONTH/DAY/kind/filename` with the date components zero-padded
to 4/2/2 digits. Concretely,
`derivePath("images", "a.jpg", 2024-03-05) = "2024/03/05/images/a.jpg"`,
whose slash-split has exactly the five expected components. -/
theorem generate_file_path_spec (kind filename : String) (y m dd : Nat) :
    (filename = "" ∨ containsChar filename '/' = true →
      generate_file_path kind filename ⟨y, m, dd⟩ = .error .invalidFilename) ∧
    (filename ≠ "" → containsChar filename '/' = false →
      generate_file_path kind filename ⟨y, m, dd⟩ =
        .ok (padNum 4 y ++ "/" ++ padNum 2 m ++ "/" ++ padNum 2 dd ++ "/" ++
          kind ++ "/" ++ filename)) ∧
    generate_file_path "images" "a.jpg" ⟨2024, 3, 5⟩ =
      .ok "2024/03/05/images/a.jpg" ∧
    splitOnChar '/' "2024/03/05/images/a.jpg".toList =
      ["2024".toList, "03".toList, "05".toList, "images".toList,
        "a.jpg".toList] := by
  refine ⟨?_, ?_, by decide, by decide⟩
  · intro h
    simp only [generate_file_path]
    rw [if_pos]
    rcases h with h | h
    · exact Or.inl h
    · exact Or.inr h
  · intro h1 h2
    simp only [generate_file_path]
    rw [if_neg]
    rintro (h | h)
    · exact h1 h
    · rw [h2] at h
      exact Bool.false_ne_true h

/-- Witness for C6: both branches at concrete inputs. -/
theorem generate_file_path_spec_witness :
    generate_file_path "documents" "b.pdf" ⟨2023, 1, 2⟩ =
      .ok "2023/01/02/documents/b.pdf" ∧
    generate_file_path "documents" "sub/b.pdf" ⟨2023, 1, 2⟩ =
      .error .invalidFilename := by
  constructor
  · have h := (generate_file_path_spec "documents" "b.pdf" 2023 1 2).2.1
      (by decide) (by decide)
    exact h.trans (by decide)
  · exact (generate_file_path_spec "documents" "sub/b.pdf" 2023 1 2).1
      (Or.inr (by decide))

/-- C10 counterexample: the dotless filename "pdf" is ACCEPTED by the
documents kind — its computed extension is ".pdf", which is valid — so
a dotless filename is not rejected for every configured kind. -/
theorem validate_extension_dotless_cex :
    containsChar "pdf" '.' = false ∧
    validate_extension documentsConfig "pdf" = .ok () := by decide

/-- C10 (amended): the extension check lowercases the filename and takes
"." plus the substring after the last "." (so matching is
case-insensitive, e.g. "A.PDF" is accepted where ".pdf" is allowed); a
filename with no "." contributes "." plus the whole lowercased name,
which is rejected unless that string itself is a valid extension of the
kind — "readme" is rejected by all three configured kinds, while "pdf"
is accepted by the documents kind. -/
theorem validate_extension_lowercase_dotless :
    (∀ cfg : ContentTypeConfig, ∀ f : String,
      validate_extension cfg f = .ok () ↔
        ("." ++ extTail f) ∈ cfg.valid_extensions) ∧
    validate_extension documentsConfig "A.PDF" = .ok () ∧
    extTail "A.PDF" = "pdf" ∧
    extTail "readme" = "readme" ∧
    validate_extension documentsConfig "readme" =
      .error (.invalidExtension ".readme") ∧
    validate_extension imagesConfig "readme" =
      .error (.invalidExtension ".readme") ∧
    validate_extension blogConfig "readme" =
      .error (.invalidExtension ".readme") ∧
    validate_extension documentsConfig "pdf" = .ok () := by
  refine ⟨?_, by decide, by decide, by decide, by decide, by decide,
    by decide, by decide⟩
  intro cfg f
  cases h : cfg.valid_extensions.contains ("." ++ extTail f) with
  | true =>
      have hm : ("." ++ extTail f) ∈ cfg.valid_extensions :=
        contains_iff_mem.mp h
      simp [validate_extension, h, hm]
  | false =>
      have hm : ("." ++ extTail f) ∉ cfg.valid_extensions := by
        intro hmem
        rw [contains_iff_mem.mpr hmem] at h
        exact Bool.noConfusion h
      simp [validate_extension, h, hm]

/-- C8: `updateMetadata` fails with the protected-field error whenever
the updates mapping names any protected field (`gcs_path`, `bucket`,
`blob_path`, `id`, `created_at`, `content_type`), regardless of the
other fields in the call, and the metadata store is left unchanged. -/
theorem update_metadata_protected_fields (cfg : ContentTypeConfig)
    (c : Collection) (id : String) (updates : List (String × Value))
    (now : Nat) (h : ∃ kv ∈ updates, kv.1 ∈ protected_fields) :
    update_metadata cfg c id updates now = (.error .protectedField, c) := by
  obtain ⟨kv, hkv, hmem⟩ := h
  have hany : updates.any (fun kv => protected_fields.contains kv.1) = true :=
    List.any_eq_true.mpr ⟨kv, hkv, contains_iff_mem.mpr hmem⟩
  simp only [update_metadata]
  rw [if_pos hany]

/-- Witness for C8: a call mixing an allowed field with the protected
`id` fails and leaves the collection untouched. -/
theorem update_metadata_protected_fields_witness :
    update_metadata documentsConfig [("d1", [("deleted_at", .vNone)])] "d1"
      [("title", .vStr "x"), ("id", .vStr "evil")] 5 =
      (.error .protectedField, [("d1", [("deleted_at", .vNone)])]) :=
  update_metadata_protected_fields documentsConfig _ "d1" _ 5
    ⟨("id", .vStr "evil"), by decide, by decide⟩

/-- C1 (amended): for a content id whose record exists but is
soft-deleted, `replaceContent` does fail — but at the initial metadata
lookup, where the tombstoned record reads as absent, raising the
content-not-found error before the blob is looked up or overwritten;
the store update rule (`AlreadyDeleted`) is never reached and both
stores are unchanged. -/
theorem update_content_soft_deleted_fails_at_lookup
    (cfg : ContentTypeConfig) (st : CMState) (id : String) (d : Doc)
    (bytes : List Nat) (now t : Nat) (hcoll : cfg.collection ≠ "")
    (hid : id ≠ "") (hd : st.meta.lookup id = some d)
    (hdel : docGetD d "deleted_at" .vNone = .vDatetime t) :
    update_content cfg st id bytes now =
      (.error (.contentNotFound id), st) := by
  have hread : read_document cfg.collection st.meta id false = .ok none := by
    simp only [read_document]
    rw [if_neg (by simp [hcoll, hid]), hd]
    simp [hdel, Value.truthy]
  simp [update_content, hread]

/-- Witness for C1 (amended): the concrete soft-deleted store. -/
theorem update_content_soft_deleted_fails_at_lookup_witness :
    update_content blogConfig stDeleted "doc1" [1, 2, 3] 99 =
      (.error (.contentNotFound "doc1"), stDeleted) :=
  update_content_soft_deleted_fails_at_lookup blogConfig stDeleted "doc1"
    deletedDoc [1, 2, 3] 99 10 (by decide) (by decide) (by decide) (by decide)

/-- C1 counterexample: on the soft-deleted record the failure is the
lookup-step content-not-found error, not the store's AlreadyDeleted
update error, and the blob store is untouched (no overwrite happened). -/
theorem update_content_soft_deleted_cex :
    update_content blogConfig stDeleted "doc1" [1, 2, 3] 99 =
      (.error (.contentNotFound "doc1"), stDeleted) ∧
    (update_content blogConfig stDeleted "doc1" [1, 2, 3] 99).1 ≠
      .error (.mm (.alreadyDeleted "doc1")) ∧
    (update_content blogConfig stDeleted "doc1" [1, 2, 3] 99).2.blobs =
      stDeleted.blobs := by decide

/-- C2 (amended): the unknown-field check accepts exactly the field
names in (requiredMetadata minus last_modified) ∪ optionalMetadata; for
the blog kind, whose requiredMetadata contains last_modified, a mapping
containing a last_modified key therefore FAILS the unknown-field
check. -/
theorem unknown_field_check_excludes_last_modified
    (cfg : ContentTypeConfig) (m : Doc)
    (hmiss : ((requiredFieldsOf cfg).any (fun f => (m.lookup f).isNone))
      = false) :
    (validate_metadata cfg (.dict m) = .error .unknownFields ↔
      ∃ k ∈ m.map Prod.fst,
        k ∉ requiredFieldsOf cfg ∧ k ∉ cfg.optional_metadata) ∧
    ("last_modified" ∈ blogConfig.required_metadata ∧
      "last_modified" ∉ requiredFieldsOf blogConfig ∧
      "last_modified" ∉ blogConfig.optional_metadata) := by
  refine ⟨?_, by decide⟩
  constructor
  · intro hval
    by_contra hno
    push_neg at hno
    have hany : ((m.map Prod.fst).any (fun k =>
        !((requiredFieldsOf cfg).contains k ||
          cfg.optional_metadata.contains k))) = false := by
      rw [List.any_eq_false]
      intro k hk hb
      have hb2 : ((requiredFieldsOf cfg).contains k ||
          cfg.optional_metadata.contains k) = false := by
        simpa using hb
      have hk1 : k ∉ requiredFieldsOf cfg := by
        intro hmem
        rw [contains_iff_mem.mpr hmem] at hb2
        simp at hb2
      have hk2 : k ∉ cfg.optional_metadata := by
        intro hmem
        rw [contains_iff_mem.mpr hmem] at hb2
        simp at hb2
      exact hk2 (hno k hk hk1)
    simp only [validate_metadata, hmiss, hany, Bool.false_eq_true,
      if_false] at hval
    exact typeCheck_ne_unknown m typeCheckedFields hval
  · rintro ⟨k, hk, hnreq, hnopt⟩
    have h1 : (requiredFieldsOf cfg).contains k = false := by
      cases hc : (requiredFieldsOf cfg).contains k
      · rfl
      · exact absurd (contains_iff_mem.mp hc) hnreq
    have h2 : cfg.optional_metadata.contains k = false := by
      cases hc : cfg.optional_metadata.contains k
      · rfl
      · exact absurd (contains_iff_mem.mp hc) hnopt
    have hany : ((m.map Prod.fst).any (fun k =>
        !((requiredFieldsOf cfg).contains k ||
          cfg.optional_metadata.contains k))) = true :=
      List.any_eq_true.mpr ⟨k, hk, by rw [h1, h2]; rfl⟩
    simp only [validate_metadata]
    rw [if_neg (fun hh => Bool.noConfusion (hmiss.symm.trans hh)), if_pos hany]

/-- Witness for C2 (amended): complete blog metadata that additionally
carries last_modified fails with the unknown-field error. -/
theorem unknown_field_check_excludes_last_modified_witness :
    validate_metadata blogConfig (.dict [("title", .vStr "t"),
      ("description", .vStr "d"), ("tags", .vList []),
      ("last_modified", .vDatetime 0)]) = .error .unknownFields := by
  refine ((unknown_field_check_excludes_last_modified blogConfig _
    (by decide)).1).mpr ?_
  exact ⟨"last_modified", by decide, by decide, by decide⟩

/-- C2 counterexample: with the blog kind, metadata carrying a
last_modified key fails the unknown-field check, while the same mapping
without it validates — so it does fail validation on that account,
contrary to the claim. -/
theorem blog_last_modified_rejected_cex :
    validate_metadata blogConfig (.dict [("title", .vStr "t"),
      ("description", .vStr "d"), ("tags", .vList []),
      ("last_modified", .vDatetime 0)]) = .error .unknownFields ∧
    validate_metadata blogConfig (.dict [("title", .vStr "t"),
      ("description", .vStr "d"), ("tags", .vList [])]) = .ok () := by
  decide

/-- C4: for every collection state and id, softDelete succeeds iff the
record exists with a null deletedAt, and then stamps both deletedAt and
updatedAt to now; a second softDelete on the result fails with
AlreadyDeleted (not idempotent); restore succeeds iff the record exists
soft-deleted, and then clears deletedAt and refreshes updatedAt; restore
on a never-deleted record fails with NotDeleted; and both operations
fail with NotFound on an absent id. -/
theorem soft_delete_restore_state_machine (c : Collection) (id : String)
    (now now2 : Nat) :
    (c.lookup id = none →
      soft_delete c id now = (.error (.notFound id), c) ∧
      restore_document c id now = (.error (.notFound id), c)) ∧
    (∀ d, c.lookup id = some d → docGetD d "deleted_at" .vNone = .vNone →
      restore_document c id now = (.error (.notDeleted id), c) ∧
      ∃ d1, soft_delete c id now = (.ok true, setKey c id d1) ∧
        d1.lookup "deleted_at" = some (.vDatetime now) ∧
        d1.lookup "updated_at" = some (.vDatetime now) ∧
        (setKey c id d1).lookup id = some d1 ∧
        soft_delete (setKey c id d1) id now2 =
          (.error (.alreadyDeleted id), setKey c id d1)) ∧
    (∀ d t, c.lookup id = some d →
      docGetD d "deleted_at" .vNone = .vDatetime t →
      soft_delete c id now = (.error (.alreadyDeleted id), c) ∧
      ∃ d1, restore_document c id now = (.ok true, setKey c id d1) ∧
        d1.lookup "deleted_at" = some .vNone ∧
        d1.lookup "updated_at" = some (.vDatetime now) ∧
        (setKey c id d1).lookup id = some d1) := by
  refine ⟨?_, ?_, ?_⟩
  · intro h
    exact ⟨by simp [soft_delete, h], by simp [restore_document, h]⟩
  · intro d hd hdel
    have htr : (docGetD d "deleted_at" .vNone).truthy = false := by
      rw [hdel]
      rfl
    refine ⟨by simp [restore_document, hd, htr], ?_⟩
    refine ⟨applyUpdates d
      [("deleted_at", .vDatetime now), ("updated_at", .vDatetime now)],
      by simp [soft_delete, hd, htr], ?_, ?_, lookup_setKey_self c id _, ?_⟩
    · show (setKey (setKey d "deleted_at" (Value.vDatetime now)) "updated_at"
        (Value.vDatetime now)).lookup "deleted_at" = some (.vDatetime now)
      rw [lookup_setKey_ne _ _ _ _ (by decide), lookup_setKey_self]
    · show (setKey (setKey d "deleted_at" (Value.vDatetime now)) "updated_at"
        (Value.vDatetime now)).lookup "updated_at" = some (.vDatetime now)
      rw [lookup_setKey_self]
    · have hl := lookup_setKey_self c id (applyUpdates d
        [("deleted_at", Value.vDatetime now), ("updated_at", Value.vDatetime now)])
      have htr1 : (docGetD (applyUpdates d
          [("deleted_at", Value.vDatetime now),
           ("updated_at", Value.vDatetime now)]) "deleted_at" .vNone).truthy
          = true := by
        show (docGetD (setKey (setKey d "deleted_at" (Value.vDatetime now))
          "updated_at" (Value.vDatetime now)) "deleted_at" .vNone).truthy = true
        rw [docGetD, lookup_setKey_ne _ _ _ _ (by decide), lookup_setKey_self]
        rfl
      simp [soft_delete, hl, htr1]
  · intro d t hd hdel
    have htr : (docGetD d "deleted_at" .vNone).truthy = true := by
      rw [hdel]
      rfl
    refine ⟨by simp [soft_delete, hd, htr], ?_⟩
    refine ⟨applyUpdates d [("deleted_at", .vNone), ("updated_at", .vDatetime now)],
      by simp [restore_document, hd, htr], ?_, ?_, lookup_setKey_self c id _⟩
    · show (setKey (setKey d "deleted_at" Value.vNone) "updated_at"
        (Value.vDatetime now)).lookup "deleted_at" = some .vNone
      rw [lookup_setKey_ne _ _ _ _ (by decide), lookup_setKey_self]
    · show (setKey (setKey d "deleted_at" Value.vNone) "updated_at"
        (Value.vDatetime now)).lookup "updated_at" = some (.vDatetime now)
      rw [lookup_setKey_self]

/-- Witness for C4: the NotFound, NotDeleted, success and
second-delete-AlreadyDeleted cases at concrete inputs. -/
theorem soft_delete_restore_state_machine_witness :
    soft_delete cLive "absent" 5 = (.error (.notFound "absent"), cLive) ∧
    restore_document cLive "a" 5 = (.error (.notDeleted "a"), cLive) ∧
    ∃ d1, soft_delete cLive "a" 5 = (.ok true, setKey cLive "a" d1) ∧
      soft_delete (setKey cLive "a" d1) "a" 6 =
        (.error (.alreadyDeleted "a"), setKey cLive "a" d1) := by
  have h := soft_delete_restore_state_machine cLive "a" 5 6
  have habs := (soft_delete_restore_state_machine cLive "absent" 5 6).1
    (by decide)
  refine ⟨habs.1, (h.2.1 liveDoc (by decide) (by decide)).1, ?_⟩
  obtain ⟨d1, h1, _, _, _, h5⟩ := (h.2.1 liveDoc (by decide) (by decide)).2
  exact ⟨d1, h1, h5⟩

theorem typeCheck_ok_of_no_violation (m : Doc) : ∀ fs : List String,
    fs.any (typeViolation m) = false → typeCheck m fs = .ok () := by
  intro fs
  induction fs with
  | nil => intro _; rfl
  | cons f fs ih =>
      intro h
      rw [List.any_cons, Bool.or_eq_false_iff] at h
      obtain ⟨hf, hrest⟩ := h
      cases hv : m.lookup f with
      | none =>
          simp only [typeCheck, hv]
          exact ih hrest
      | some v =>
          have he : expectedType f v = true := by
            simp only [typeViolation, hv] at hf
            simpa using hf
          simp only [typeCheck, hv]
          rw [if_pos he]
          exact ih hrest

theorem typeCheck_err_of_violation (m : Doc) : ∀ fs : List String,
    fs.any (typeViolation m) = true →
    ∃ f v, typeCheck m fs = .error (.badType f) ∧ m.lookup f = some v ∧
      expectedType f v = false := by
  intro fs
  induction fs with
  | nil => intro h; simp at h
  | cons f fs ih =>
      intro h
      cases hv : m.lookup f with
      | none =>
          have hf : typeViolation m f = false := by
            simp [typeViolation, hv]
          rw [List.any_cons, hf, Bool.false_or] at h
          simp only [typeCheck, hv]
          exact ih h
      | some v =>
          cases he : expectedType f v with
          | true =>
              have hf : typeViolation m f = false := by
                simp [typeViolation, hv, he]
              rw [List.any_cons, hf, Bool.false_or] at h
              simp only [typeCheck, hv]
              rw [if_pos he]
              exact ih h
          | false =>
              refine ⟨f, v, ?_, hv, he⟩
              simp only [typeCheck, hv]
              rw [if_neg (fun hh => Bool.noConfusion (he.symm.trans hh))]

/-- C7: the validator surfaces the FIRST violated class in the fixed
order shape check → missing-required check (with the dynamically
computed `last_modified` excluded from the required set) → unknown-field
check → per-field type check; and per-field, `tags` must be a list or
set while `taken_at` / `publish_date` / `created_date` must be actual
timestamp values. -/
theorem validate_metadata_order (cfg : ContentTypeConfig) :
    (∀ v, validate_metadata cfg (.nonDict v) = .error .notADict) ∧
    (∀ m, hasMissingRequired cfg m = true →
      validate_metadata cfg (.dict m) = .error .missingRequired) ∧
    (∀ m, hasMissingRequired cfg m = false → hasUnknownField cfg m = true →
      validate_metadata cfg (.dict m) = .error .unknownFields) ∧
    (∀ m, hasMissingRequired cfg m = false → hasUnknownField cfg m = false →
      (hasTypeViolation m = true →
        ∃ f v, validate_metadata cfg (.dict m) = .error (.badType f) ∧
          m.lookup f = some v ∧ expectedType f v = false) ∧
      (hasTypeViolation m = false →
        validate_metadata cfg (.dict m) = .ok ())) ∧
    (expectedType "tags" (.vList []) = true ∧
      expectedType "tags" (.vSet ["a"]) = true ∧
      expectedType "tags" (.vStr "not-a-list") = false ∧
      expectedType "taken_at" (.vDatetime 0) = true ∧
      expectedType "publish_date" (.vStr "2024-01-01") = false ∧
      expectedType "created_date" (.vInt 3) = false) := by
  refine ⟨fun v => rfl, ?_, ?_, ?_, by decide⟩
  · intro m hmiss
    have hmiss1 : ((requiredFieldsOf cfg).any
        (fun f => (m.lookup f).isNone)) = true := hmiss
    simp only [validate_metadata]
    rw [if_pos hmiss1]
  · intro m hmiss hunk
    have hmiss1 : ((requiredFieldsOf cfg).any
        (fun f => (m.lookup f).isNone)) = false := hmiss
    have hunk1 : ((m.map Prod.fst).any (fun k =>
        !((requiredFieldsOf cfg).contains k ||
          cfg.optional_metadata.contains k))) = true := hunk
    simp only [validate_metadata]
    rw [if_neg (fun hh => Bool.noConfusion (hmiss1.symm.trans hh)),
      if_pos hunk1]
  · intro m hmiss hunk
    have hmiss1 : ((requiredFieldsOf cfg).any
        (fun f => (m.lookup f).isNone)) = false := hmiss
    have hunk1 : ((m.map Prod.fst).any (fun k =>
        !((requiredFieldsOf cfg).contains k ||
          cfg.optional_metadata.contains k))) = false := hunk
    have hv : validate_metadata cfg (.dict m) =
        typeCheck m typeCheckedFields := by
      simp only [validate_metadata]
      rw [if_neg (fun hh => Bool.noConfusion (hmiss1.symm.trans hh)),
        if_neg (fun hh => Bool.noConfusion (hunk1.symm.trans hh))]
    constructor
    · intro ht
      obtain ⟨f, v, h1, h2, h3⟩ := typeCheck_err_of_violation m
        typeCheckedFields ht
      exact ⟨f, v, hv.trans h1, h2, h3⟩
    · intro ht
      exact hv.trans (typeCheck_ok_of_no_violation m typeCheckedFields ht)

/-- Witness for C7: for the documents kind, a mapping violating several
later checks still reports the earliest violated class. -/
theorem validate_metadata_order_witness :
    validate_metadata documentsConfig (.dict [("description", .vStr "d"),
      ("foo", .vStr "?"), ("tags", .vStr "bad")]) = .error .missingRequired ∧
    validate_metadata documentsConfig (.dict [("title", .vStr "t"),
      ("description", .vStr "d"), ("tags", .vStr "bad"),
      ("foo", .vStr "?")]) = .error .unknownFields ∧
    (∃ f v, validate_metadata documentsConfig (.dict [("title", .vStr "t"),
      ("description", .vStr "d"), ("tags", .vStr "bad")]) =
        .error (.badType f) ∧
      (List.lookup f [("title", Value.vStr "t"), ("description", .vStr "d"),
        ("tags", .vStr "bad")]) = some v ∧ expectedType f v = false) ∧
    validate_metadata documentsConfig (.dict [("title", .vStr "t"),
      ("description", .vStr "d"), ("tags", .vList ["a"])]) = .ok () := by
  have h := validate_metadata_order documentsConfig
  exact ⟨h.2.1 _ (by decide), h.2.2.1 _ (by decide) (by decide),
    (h.2.2.2.1 _ (by decide) (by decide)).1 (by decide),
    (h.2.2.2.1 _ (by decide) (by decide)).2 (by decide)⟩

/-- C9: in `uploadNew` every validation failure — invalid extension,
invalid metadata, invalid filename — is raised before the blob write and
before the metadata create, leaving both stores unchanged; and when the
blob write itself fails, no metadata record is created and the state is
returned unchanged. -/
theorem upload_new_content_fail_fast (cfg : ContentTypeConfig)
    (bucket ctn : String) (st : CMState) (filename : String)
    (content : List Nat) (metadata : MetaArg) (date : Date)
    (cd : Option Nat) (now : Nat) (newId : String) (ok : Bool) :
    (∀ e, validate_extension cfg filename = .error e →
      upload_new_content cfg bucket ctn st filename content metadata date
        cd now newId ok = (.error e, st)) ∧
    (∀ ve, validate_extension cfg filename = .ok () →
      validate_metadata cfg metadata = .error ve →
      upload_new_content cfg bucket ctn st filename content metadata date
        cd now newId ok = (.error (.validation ve), st)) ∧
    (∀ m, validate_extension cfg filename = .ok () → metadata = .dict m →
      validate_metadata cfg metadata = .ok () →
      generate_file_path ctn filename date = .error .invalidFilename →
      upload_new_content cfg bucket ctn st filename content metadata date
        cd now newId ok = (.error .invalidFilename, st)) ∧
    (∀ m fp, validate_extension cfg filename = .ok () → metadata = .dict m →
      validate_metadata cfg metadata = .ok () →
      generate_file_path ctn filename date = .ok fp →
      upload_new_content cfg bucket ctn st filename content metadata date
        cd now newId false = (.error .blobWriteFailed, st)) := by
  refine ⟨?_, ?_, ?_, ?_⟩
  · intro e hext
    simp only [upload_new_content, hext]
  · intro ve hext hval
    cases metadata with
    | dict m => simp only [upload_new_content, hext, hval]
    | nonDict v => simp only [upload_new_content, hext, hval]
  · intro m hext hm hval hpath
    subst hm
    simp only [upload_new_content, hext, hval, hpath]
  · intro m fp hext hm hval hpath
    subst hm
    simp [upload_new_content, hext, hval, hpath]

/-- Witness for C9: each failure mode at concrete inputs over the empty
state, which is returned unchanged. -/
theorem upload_new_content_fail_fast_witness :
    upload_new_content documentsConfig "bkt" "documents"
      (⟨[], []⟩ : CMState) "a.txt" [1]
      (.dict [("title", .vStr "t"), ("description", .vStr "d"),
        ("tags", .vList [])]) ⟨2024, 1, 1⟩ none 0 "n1" true =
      (.error (.invalidExtension ".txt"), (⟨[], []⟩ : CMState)) ∧
    upload_new_content documentsConfig "bkt" "documents"
      (⟨[], []⟩ : CMState) "a.pdf" [1]
      (.dict [("description", .vStr "d"), ("tags", .vList [])])
      ⟨2024, 1, 1⟩ none 0 "n1" true =
      (.error (.validation .missingRequired), (⟨[], []⟩ : CMState)) ∧
    upload_new_content documentsConfig "bkt" "documents"
      (⟨[], []⟩ : CMState) "sub/a.pdf" [1]
      (.dict [("title", .vStr "t"), ("description", .vStr "d"),
        ("tags", .vList [])]) ⟨2024, 1, 1⟩ none 0 "n1" true =
      (.error .invalidFilename, (⟨[], []⟩ : CMState)) ∧
    upload_new_content documentsConfig "bkt" "documents"
      (⟨[], []⟩ : CMState) "a.pdf" [1]
      (.dict [("title", .vStr "t"), ("description", .vStr "d"),
        ("tags", .vList [])]) ⟨2024, 1, 1⟩ none 0 "n1" false =
      (.error .blobWriteFailed, (⟨[], []⟩ : CMState)) := by
  refine ⟨?_, ?_, ?_, ?_⟩
  · exact (upload_new_content_fail_fast documentsConfig "bkt" "documents"
      ⟨[], []⟩ "a.txt" [1] _ ⟨2024, 1, 1⟩ none 0 "n1" true).1
      (.invalidExtension ".txt") (by decide)
  · exact (upload_new_content_fail_fast documentsConfig "bkt" "documents"
      ⟨[], []⟩ "a.pdf" [1] _ ⟨2024, 1, 1⟩ none 0 "n1" true).2.1
      .missingRequired (by decide) (by decide)
  · exact (upload_new_content_fail_fast documentsConfig "bkt" "documents"
      ⟨[], []⟩ "sub/a.pdf" [1] _ ⟨2024, 1, 1⟩ none 0 "n1" true).2.2.1
      _ (by decide) rfl (by decide) (by decide)
  · exact (upload_new_content_fail_fast documentsConfig "bkt" "documents"
      ⟨[], []⟩ "a.pdf" [1] _ ⟨2024, 1, 1⟩ none 0 "n1" true).2.2.2
      _ "2024/01/01/documents/a.pdf" (by decide) rfl (by decide) (by decide)

theorem applyUpdates_cons (d : Doc) (k : String) (v : Value)
    (rest : List (String × Value)) :
    applyUpdates d ((k, v) :: rest) = applyUpdates (setKey d k v) rest := rfl

theorem applyUpdates_nil (d : Doc) : applyUpdates d [] = d := rfl

/-- A tags-only `update_metadata` on an existing live record succeeds,
writes through the store update, and the returned record carries the
new tags value. -/
theorem update_metadata_tags_ok (cfg : ContentTypeConfig) (c : Collection)
    (id : String) (d : Doc) (v : Value) (now : Nat)
    (hcoll : cfg.collection ≠ "") (hid : id ≠ "")
    (hd : c.lookup id = some d)
    (hdel : docGetD d "deleted_at" .vNone = .vNone) :
    ∃ d1, update_metadata cfg c id [("tags", v)] now =
        (.ok (some d1), setKey c id d1) ∧
      d1.lookup "tags" = some v := by
  have htr : (docGetD d "deleted_at" Value.vNone).truthy = false := by
    rw [hdel]
    rfl
  have hprot : (([("tags", v)] : List (String × Value)).any
      (fun kv => protected_fields.contains kv.1)) = false := by
    simp [protected_fields]
  simp only [update_metadata]
  rw [if_neg (fun hh => Bool.noConfusion (hprot.symm.trans hh))]
  cases hlm : cfg.required_metadata.contains "last_modified" with
  | false =>
      simp only [Bool.false_eq_true, if_false]
      refine ⟨applyUpdates d [("tags", v), ("updated_at", .vDatetime now)],
        ?_, ?_⟩
      · have hne : ¬(cfg.collection = "" ∨ id = "" ∨
            (([("tags", v)] : List (String × Value)).isEmpty) = true) := by
          rintro (h | h | h)
          · exact hcoll h
          · exact hid h
          · exact Bool.noConfusion h
        simp only [update_document]
        rw [if_neg hne]
        simp only [hd]
        rw [if_neg (fun hh => Bool.noConfusion (htr.symm.trans hh))]
        have hread1 : read_document cfg.collection
            (setKey c id (applyUpdates d
              [("tags", v), ("updated_at", Value.vDatetime now)])) id false =
            .ok (some (applyUpdates d
              [("tags", v), ("updated_at", Value.vDatetime now)])) := by
          simp only [read_document]
          rw [if_neg (by simp [hcoll, hid])]
          simp only [lookup_setKey_self]
          have hds : docGetD (applyUpdates d
              [("tags", v), ("updated_at", Value.vDatetime now)])
              "deleted_at" .vNone = docGetD d "deleted_at" .vNone := by
            simp only [applyUpdates_cons, applyUpdates_nil, docGetD]
            rw [lookup_setKey_ne _ _ _ _ (by decide),
              lookup_setKey_ne _ _ _ _ (by decide)]
          rw [hds]
          simp [hdel, Value.truthy]
        simp only [List.cons_append, List.nil_append]
        rw [hread1]
      · simp only [applyUpdates_cons, applyUpdates_nil]
        rw [lookup_setKey_ne _ _ _ _ (by decide), lookup_setKey_self]
  | true =>
      rw [if_pos rfl]
      refine ⟨applyUpdates d [("tags", v), ("last_modified", .vDatetime now),
        ("updated_at", .vDatetime now)], ?_, ?_⟩
      · have hne : ¬(cfg.collection = "" ∨ id = "" ∨
            ((applyUpdates [("tags", v)]
              [("last_modified", Value.vDatetime now)]).isEmpty) = true) := by
          rintro (h | h | h)
          · exact hcoll h
          · exact hid h
          · exact Bool.noConfusion h
        simp only [update_document]
        rw [if_neg hne]
        simp only [hd]
        rw [if_neg (fun hh => Bool.noConfusion (htr.symm.trans hh))]
        have hread1 : read_document cfg.collection
            (setKey c id (applyUpdates d [("tags", v),
              ("last_modified", Value.vDatetime now),
              ("updated_at", Value.vDatetime now)])) id false =
            .ok (some (applyUpdates d [("tags", v),
              ("last_modified", Value.vDatetime now),
              ("updated_at", Value.vDatetime now)])) := by
          simp only [read_document]
          rw [if_neg (by simp [hcoll, hid])]
          simp only [lookup_setKey_self]
          have hds : docGetD (applyUpdates d [("tags", v),
              ("last_modified", Value.vDatetime now),
              ("updated_at", Value.vDatetime now)])
              "deleted_at" .vNone = docGetD d "deleted_at" .vNone := by
            simp only [applyUpdates_cons, applyUpdates_nil, docGetD]
            rw [lookup_setKey_ne _ _ _ _ (by decide),
              lookup_setKey_ne _ _ _ _ (by decide),
              lookup_setKey_ne _ _ _ _ (by decide)]
          rw [hds]
          simp [hdel, Value.truthy]
        have happ : applyUpdates [("tags", v)]
            [("last_modified", Value.vDatetime now)] =
            [("tags", v), ("last_modified", Value.vDatetime now)] := rfl
        rw [happ]
        simp only [List.cons_append, List.nil_append]
        rw [hread1]
      · simp only [applyUpdates_cons, applyUpdates_nil]
        rw [lookup_setKey_ne _ _ _ _ (by decide),
          lookup_setKey_ne _ _ _ _ (by decide), lookup_setKey_self]

/-- C5: for an existing non-deleted content id with current tag list T
(taken as empty when the tags field is absent) and input tags S,
updateTags with operation set / add / remove stores exactly set(S) /
T ∪ S / T \\ S, written back as the sorted duplicate-free list; any
other operation name fails with InvalidOperation and leaves the
collection unchanged. -/
theorem update_content_tags_algebra (cfg : ContentTypeConfig)
    (c : Collection) (id : String) (d : Doc) (T S : List String)
    (op : String) (now : Nat) (hcoll : cfg.collection ≠ "") (hid : id ≠ "")
    (hd : c.lookup id = some d)
    (hdel : docGetD d "deleted_at" .vNone = .vNone)
    (htags : docGetD d "tags" (.vList []) = .vList T) :
    ((op = "set" ∨ op = "add" ∨ op = "remove") →
      ∃ d1 L, update_content_tags cfg c id S op now =
          (.ok (some d1), setKey c id d1) ∧
        d1.lookup "tags" = some (.vList L) ∧
        List.Sorted tagLe L ∧ L.Nodup ∧
        (∀ x, x ∈ L ↔
          if op = "set" then x ∈ S
          else if op = "add" then x ∈ T ∨ x ∈ S
          else (x ∈ T ∧ x ∉ S))) ∧
    ((op ≠ "set" ∧ op ≠ "add" ∧ op ≠ "remove") →
      update_content_tags cfg c id S op now =
        (.error (.invalidOperation op), c)) := by
  have htr : (docGetD d "deleted_at" Value.vNone).truthy = false := by
    rw [hdel]
    rfl
  have hread : read_document cfg.collection c id false = .ok (some d) := by
    simp only [read_document]
    rw [if_neg (by simp [hcoll, hid])]
    simp only [hd]
    simp [htr]
  have hiter : tagIterable (docGetD d "tags" (.vList [])) = some T := by
    rw [htags]
    rfl
  constructor
  · rintro (rfl | rfl | rfl)
    · have h1 : update_content_tags cfg c id S "set" now =
          update_metadata cfg c id
            [("tags", .vList (sortedTagList S))] now := by
        simp [update_content_tags, hread, hiter, sortedTagList]
      obtain ⟨d1, h2, h3⟩ := update_metadata_tags_ok cfg c id d
        (.vList (sortedTagList S)) now hcoll hid hd hdel
      refine ⟨d1, sortedTagList S, h1.trans h2, h3,
        List.sorted_insertionSort tagLe (dedupStr S),
        (List.perm_insertionSort tagLe (dedupStr S)).nodup_iff.mpr
          (nodup_dedupStr S), ?_⟩
      intro x
      rw [if_pos rfl]
      simp only [sortedTagList, List.mem_insertionSort]
      exact mem_dedupStr
    · have h1 : update_content_tags cfg c id S "add" now =
          update_metadata cfg c id
            [("tags", .vList (sortedTagList (T ++ S)))] now := by
        simp [update_content_tags, hread, hiter, sortedTagList]
      obtain ⟨d1, h2, h3⟩ := update_metadata_tags_ok cfg c id d
        (.vList (sortedTagList (T ++ S))) now hcoll hid hd hdel
      refine ⟨d1, sortedTagList (T ++ S), h1.trans h2, h3,
        List.sorted_insertionSort tagLe (dedupStr (T ++ S)),
        (List.perm_insertionSort tagLe (dedupStr (T ++ S))).nodup_iff.mpr
          (nodup_dedupStr (T ++ S)), ?_⟩
      intro x
      rw [if_neg (by decide), if_pos rfl]
      simp only [sortedTagList, List.mem_insertionSort]
      rw [mem_dedupStr]
      exact List.mem_append
    · have h1 : update_content_tags cfg c id S "remove" now =
          update_metadata cfg c id
            [("tags", .vList (sortedTagList
              (T.filter (fun t => !S.contains t))))] now := by
        simp [update_content_tags, hread, hiter, sortedTagList]
      obtain ⟨d1, h2, h3⟩ := update_metadata_tags_ok cfg c id d
        (.vList (sortedTagList (T.filter (fun t => !S.contains t)))) now
        hcoll hid hd hdel
      refine ⟨d1, sortedTagList (T.filter (fun t => !S.contains t)),
        h1.trans h2, h3,
        List.sorted_insertionSort tagLe _,
        (List.perm_insertionSort tagLe _).nodup_iff.mpr
          (nodup_dedupStr _), ?_⟩
      intro x
      rw [if_neg (by decide), if_neg (by decide)]
      simp only [sortedTagList, List.mem_insertionSort]
      rw [mem_dedupStr, List.mem_filter]
      constructor
      · rintro ⟨hxT, hxb⟩
        refine ⟨hxT, fun hxS => ?_⟩
        rw [contains_iff_mem.mpr hxS] at hxb
        exact Bool.noConfusion hxb
      · rintro ⟨hxT, hxS⟩
        refine ⟨hxT, ?_⟩
        cases hc : S.contains x with
        | false => rfl
        | true => exact absurd (contains_iff_mem.mp hc) hxS
  · rintro ⟨h1, h2, h3⟩
    simp only [update_content_tags, hread, hiter]
    rw [if_neg h1, if_neg h2, if_neg h3]

/-- Witness for C5: on a record with tags ["x"], add ["x","y"] stores a
sorted duplicate-free list whose membership is exactly the union, and
an unknown operation fails with InvalidOperation. -/
theorem update_content_tags_algebra_witness :
    (∃ d1 L, update_content_tags documentsConfig cTagged "d1" ["x", "y"]
        "add" 5 = (.ok (some d1), setKey cTagged "d1" d1) ∧
      d1.lookup "tags" = some (.vList L) ∧ List.Sorted tagLe L ∧ L.Nodup ∧
      (∀ x, x ∈ L ↔ x ∈ ["x"] ∨ x ∈ ["x", "y"])) ∧
    update_content_tags documentsConfig cTagged "d1" ["q"] "frobnicate" 5 =
      (.error (.invalidOperation "frobnicate"), cTagged) := by
  have h := update_content_tags_algebra documentsConfig cTagged "d1"
    taggedDoc ["x"] ["x", "y"] "add" 5 (by decide) (by decide) (by decide)
    (by decide) (by decide)
  have h2 := update_content_tags_algebra documentsConfig cTagged "d1"
    taggedDoc ["x"] ["q"] "frobnicate" 5 (by decide) (by decide) (by decide)
    (by decide) (by decide)
  constructor
  · obtain ⟨d1, L, ha, hb, hc, hd, he⟩ := h.1 (Or.inr (Or.inl rfl))
    refine ⟨d1, L, ha, hb, hc, hd, fun x => ?_⟩
    have hx := he x
    rw [if_neg (by decide), if_pos rfl] at hx
    exact hx
  · exact h2.2 ⟨by decide, by decide, by decide⟩

/-- C3: `list` computes pagination over the entire filtered, sorted
result set: items = sorted[(page-1)·perPage : page·perPage], total =
the filtered count, pages = the ceiling division of total by perPage; a
page past the end returns empty items with the same total and pages. -/
theorem list_documents_pagination (c : Collection)
    (filters : List DocFilter) (order_by : String) (descending : Bool)
    (page per_page : Nat) (hpage : 0 < page) (hpp : 0 < per_page) :
    (list_documents c false none order_by descending filters (some page)
      (some per_page)).items =
      ((filteredSorted c false filters order_by descending).drop
        ((page - 1) * per_page)).take per_page ∧
    (list_documents c false none order_by descending filters (some page)
      (some per_page)).total =
      (filteredSorted c false filters order_by descending).length ∧
    (list_documents c false none order_by descending filters (some page)
      (some per_page)).pages =
      some ((filteredSorted c false filters order_by descending).length
        ⌈/⌉ per_page) ∧
    ((filteredSorted c false filters order_by descending).length ≤
        (page - 1) * per_page →
      (list_documents c false none order_by descending filters (some page)
        (some per_page)).items = []) := by
  refine ⟨rfl, rfl, ?_, ?_⟩
  · rw [Nat.ceilDiv_eq_add_pred_div]
    exact rfl
  · intro h
    show ((filteredSorted c false filters order_by descending).drop
      ((page - 1) * per_page)).take per_page = []
    rw [List.drop_eq_nil_of_le h, List.take_nil]

/-- Witness for C3: over 12 live documents sorted ascending by
created_at, page 2 with perPage 5 returns exactly the 0-indexed items
5–9, total 12, pages 3; page 4 is past the end and returns no items. -/
theorem list_documents_pagination_witness :
    (list_documents sampleCollection false none "created_at" false []
      (some 2) (some 5)).items =
      [sampleDoc 5, sampleDoc 6, sampleDoc 7, sampleDoc 8, sampleDoc 9] ∧
    (list_documents sampleCollection false none "created_at" false []
      (some 2) (some 5)).total = 12 ∧
    (list_documents sampleCollection false none "created_at" false []
      (some 2) (some 5)).pages = some 3 ∧
    (list_documents sampleCollection false none "created_at" false []
      (some 4) (some 5)).items = [] := by
  have h := list_documents_pagination sampleCollection [] "created_at"
    false 2 5 (by decide) (by decide)
  have h4 := list_documents_pagination sampleCollection [] "created_at"
    false 4 5 (by decide) (by decide)
  exact ⟨h.1.trans (by decide), h.2.1.trans (by decide),
    h.2.2.1.trans (by decide), h4.2.2.2 (by decide)⟩

end Pl4m
